import Mathlib

/-!
Shallow embedding of the Nirmaan transcript-scoring backend
(backend/utils.py, backend/nlp_processor.py, backend/scoring_engine.py,
backend/app.py) over rational arithmetic.  External collaborators
(the sentence-embedding similarity oracle and the nltk tokenizers) are
modelled as explicit function parameters.  Python float arithmetic is
modelled over the rationals; the fallible function analyze_text_quality
(which can raise ZeroDivisionError) returns an Option.
-/

namespace Nirmaan

/-! ## Python string primitives -/

/-- Model of Python str.lower: case-fold each character. -/
def pyLower (s : String) : String := (s.toList.map Char.toLower).asString

/-- Splitter on whitespace runs over char lists, accumulating the current
word in reverse; empty fragments are dropped, as Python str.split() does. -/
def splitWsAux : List Char → List Char → List String
  | [], acc => if acc.isEmpty then [] else [acc.reverse.asString]
  | c :: t, acc =>
    if c.isWhitespace then
      if acc.isEmpty then splitWsAux t [] else acc.reverse.asString :: splitWsAux t []
    else splitWsAux t (c :: acc)

/-- Model of Python str.split() with no argument: split on whitespace runs,
dropping empty fragments. -/
def pySplit (s : String) : List String := splitWsAux s.toList []

/-- Model of Python str.strip(): drop leading and trailing whitespace. -/
def pyStrip (s : String) : String :=
  (((s.toList.dropWhile Char.isWhitespace).reverse.dropWhile Char.isWhitespace).reverse).asString

/-- Model of the Python substring test (needle in haystack) on char lists. -/
def listContainsSub (n : List Char) : List Char → Bool
  | [] => n.isEmpty
  | c :: t => n.isPrefixOf (c :: t) || listContainsSub n t

/-- Model of the Python substring test (needle in haystack) on strings. -/
def containsSub (needle haystack : String) : Bool :=
  listContainsSub needle.toList haystack.toList

/-- Non-overlapping occurrence count of a nonempty needle, scanning left to right. -/
def countOccAux (n : List Char) : List Char → Nat
  | [] => 0
  | c :: t =>
    if n.isPrefixOf (c :: t) then 1 + countOccAux n (t.drop (n.length - 1))
    else countOccAux n t
termination_by l => l.length
decreasing_by
  · simp only [List.length_drop, List.length_cons]; omega
  · simp only [List.length_cons]; omega

/-- Model of Python str.count: non-overlapping substring occurrences
(len(haystack)+1 for the empty needle, as in CPython). -/
def pyCount (needle haystack : String) : Nat :=
  if needle = "" then haystack.length + 1
  else countOccAux needle.toList haystack.toList

/-- Model of Python str.isalnum(): nonempty and every character alphanumeric. -/
def pyIsAlnum (s : String) : Bool :=
  s ≠ "" && s.toList.all Char.isAlphanum

/-- Model of Python round(x, 2) over the rationals: round to the nearest
multiple of 1/100 (ties rounded up; float bankers-rounding ties are not
distinguished by any property proved below). -/
def pyRound2 (q : ℚ) : ℚ := (⌊q * 100 + 1 / 2⌋ : ℚ) / 100

/-! ## backend/utils.py -/

/-- utils.normalize_score: clamp a score into the closed range given by
min_val and max_val (call sites use 0 and 100). -/
def normalize_score (score min_val max_val : ℚ) : ℚ :=
  max min_val (min max_val score)

/-- utils.calculate_weighted_average. -/
def calculate_weighted_average (scores weights : List ℚ) : ℚ :=
  if scores = [] ∨ weights = [] ∨ scores.length ≠ weights.length then 0
  else
    let total_weight := weights.sum
    if total_weight = 0 then 0
    else (List.zipWith (fun s w => s * w) scores weights).sum / total_weight

/-- Splitter at commas over char lists, accumulating the current fragment in
reverse; empty fragments are kept, as Python str.split with a separator does. -/
def splitCommaAux : List Char → List Char → List String
  | [], acc => [acc.reverse.asString]
  | c :: t, acc =>
    if c = ',' then acc.reverse.asString :: splitCommaAux t []
    else splitCommaAux t (c :: acc)

/-- utils.parse_keywords: split a comma-separated string, strip each part,
drop empty parts. -/
def parse_keywords (keyword_string : String) : List String :=
  if keyword_string = "" then []
  else ((splitCommaAux keyword_string.toList []).map pyStrip).filter (fun k => k ≠ "")

/-- utils.get_word_count_status. -/
def get_word_count_status (word_count min_words max_words : ℕ) : String :=
  if min_words = 0 ∧ max_words ≥ 999 then ("no_limit")
  else if word_count < min_words then ("too_short")
  else if word_count > max_words then ("too_long")
  else ("within_range")

/-- Result of utils.validate_transcript: the valid flag, the message, and
the word_count key (present only on the valid branch). -/
structure ValidationResult where
  valid : Bool
  message : String
  word_count : Option ℕ
  deriving Repr, DecidableEq

/-- utils.validate_transcript. -/
def validate_transcript (transcript : String) : ValidationResult :=
  if transcript = "" ∨ pyStrip transcript = "" then
    ⟨false, ("Transcript is empty"), none⟩
  else
    let word_count := (pySplit transcript).length
    if word_count < 10 then
      ⟨false, ("Transcript too short (") ++ toString word_count ++ (" words). Minimum 10 words required."), none⟩
    else if word_count > 5000 then
      ⟨false, ("Transcript too long (") ++ toString word_count ++ (" words). Maximum 5000 words allowed."), none⟩
    else
      ⟨true, ("Transcript is valid"), some word_count⟩

/-! ## backend/nlp_processor.py

The nltk tokenizers word_tokenize and sent_tokenize are external
collaborators; they are passed as explicit function parameters wordTok and
sentTok.  The sentence-transformer similarity oracle is likewise passed as
a parameter where needed. -/

/-- Character class kept by the second regex of preprocess_text:
the pattern keeps word characters (alphanumeric or underscore), whitespace
and the punctuation set period, comma, bang, question mark, hyphen. -/
def keepChar (c : Char) : Bool :=
  c.isAlphanum || c = '_' || c.isWhitespace || c = '.' || c = ',' || c = '!' || c = '?' || c = '-'

/-- First regex of preprocess_text: replace every maximal whitespace run by
one space.  The Bool flag records whether the previous character was
whitespace (i.e. whether we are inside a run). -/
def collapseWsAux : Bool → List Char → List Char
  | _, [] => []
  | prevWs, c :: t =>
    if c.isWhitespace then
      if prevWs then collapseWsAux true t
      else ' ' :: collapseWsAux true t
    else c :: collapseWsAux false t

/-- NLPProcessor.preprocess_text: collapse whitespace runs to a single
space, drop characters outside the kept class, strip the ends. -/
def preprocess_text (text : String) : String :=
  let t1 := (collapseWsAux false text.toList).asString
  let t2 := (t1.toList.filter keepChar).asString
  pyStrip t2

/-- NLPProcessor.count_words: tokenize the lower-cased text and count the
alphanumeric tokens. -/
def count_words (wordTok : String → List String) (text : String) : ℕ :=
  ((wordTok (pyLower text)).filter pyIsAlnum).length

/-- The per-keyword match test of NLPProcessor.find_keyword_matches: the
case-folded keyword occurs as a substring of the case-folded text, or as an
exact token of the tokenized case-folded text. -/
def keyword_matched (wordTok : String → List String) (text kw : String) : Bool :=
  containsSub (pyLower kw) (pyLower text) || (wordTok (pyLower text)).contains (pyLower kw)

/-- Result of NLPProcessor.find_keyword_matches. -/
structure KeywordMatches where
  found : List String
  missing : List String
  match_rate : ℚ
  deriving Repr, DecidableEq

/-- NLPProcessor.find_keyword_matches: the loop appends each keyword to
found when it matches and to missing otherwise, which is a partition of the
keyword list by the match test, preserving order. -/
def find_keyword_matches (wordTok : String → List String) (text : String)
    (keywords : List String) : KeywordMatches :=
  let found := keywords.filter (fun kw => keyword_matched wordTok text kw)
  let missing := keywords.filter (fun kw => !(keyword_matched wordTok text kw))
  { found := found
    missing := missing
    match_rate := if keywords ≠ [] then (found.length : ℚ) / (keywords.length : ℚ) else 0 }

/-- Result of NLPProcessor.analyze_text_quality. -/
structure TextQuality where
  word_count : ℕ
  sentence_count : ℕ
  avg_sentence_length : ℚ
  unique_words : ℕ
  vocabulary_richness : ℚ
  deriving Repr, DecidableEq

/-- NLPProcessor.analyze_text_quality.  The vocabulary_richness entry
divides by the number of alphanumeric tokens whenever the token list is
nonempty; when the token list is nonempty but has no alphanumeric token the
Python code raises ZeroDivisionError, modelled by none. -/
def analyze_text_quality (sentTok wordTok : String → List String)
    (text : String) : Option TextQuality :=
  let sentences := sentTok text
  let words := wordTok text
  let alnum := words.filter pyIsAlnum
  if words ≠ [] ∧ alnum.length = 0 then none
  else
    some { word_count := alnum.length
           sentence_count := sentences.length
           avg_sentence_length :=
             if sentences ≠ [] then (words.length : ℚ) / (sentences.length : ℚ) else 0
           unique_words := (alnum.map pyLower).dedup.length
           vocabulary_richness :=
             if words ≠ [] then (((alnum.map pyLower).dedup.length : ℕ) : ℚ) / (alnum.length : ℚ)
             else 0 }

/-! ## utils.format_feedback -/

/-- utils.format_feedback: deterministic template-based feedback text. -/
def format_feedback (score : ℚ) (keywords_found keywords_missing : List String)
    (semantic_similarity : ℚ) (word_count min_words max_words : ℕ) : String :=
  let part1 : String :=
    if score ≥ 90 then ("Excellent performance.")
    else if score ≥ 75 then ("Good performance.")
    else if score ≥ 60 then ("Satisfactory performance.")
    else if score ≥ 40 then ("Needs improvement.")
    else ("Requires significant improvement.")
  let part2 : List String :=
    if keywords_found ≠ [] then
      if keywords_found.length > 3 then
        [("Strong keyword coverage with terms like \x27") ++ keywords_found.headD ("") ++
          ("\x27, \x27") ++ (keywords_found.drop 1).headD ("") ++ ("\x27, and ") ++
          toString (keywords_found.length - 2) ++ (" more.")]
      else [("Found keywords: ") ++ String.intercalate (", ") (keywords_found.take 3) ++ (".")]
    else []
  let part3 : List String :=
    if keywords_missing ≠ [] ∧ keywords_missing.length ≤ 3 then
      [("Consider including: ") ++ String.intercalate (", ") keywords_missing ++ (".")]
    else if keywords_missing ≠ [] then
      [("Missing ") ++ toString keywords_missing.length ++ (" suggested keywords.")]
    else []
  let part4 : String :=
    if semantic_similarity ≥ 3 / 4 then ("Strong semantic alignment with criterion.")
    else if semantic_similarity ≥ 1 / 2 then ("Moderate semantic relevance.")
    else ("Consider addressing this aspect more directly.")
  let part5 : List String :=
    if min_words > 0 ∧ max_words < 999 then
      if word_count < min_words then
        [("Content is brief (") ++ toString word_count ++
          (" words). Consider expanding (recommended: ") ++ toString min_words ++ ("+ words).")]
      else if word_count > max_words then
        [("Content is lengthy (") ++ toString word_count ++
          (" words). Consider being more concise (recommended: under ") ++
          toString max_words ++ (" words).")]
      else [("Good length (") ++ toString word_count ++ (" words).")]
    else []
  String.intercalate (" ") ([part1] ++ part2 ++ part3 ++ [part4] ++ part5)

/-! ## backend/scoring_engine.py -/

/-- The word-count-compliance term of ScoringEngine._rule_based_score
(the 30 percent of the rule score the Python code adds after the keyword
term): full 30 when no limits are configured, 30 inside the range, partial
credit below the minimum, a flat 20 above the maximum. -/
def length_term (word_count min_words max_words : ℕ) : ℚ :=
  if min_words > 0 ∨ max_words < 999 then
    if min_words ≤ word_count ∧ word_count ≤ max_words then 30
    else if word_count < min_words then
      30 * min (if min_words > 0 then (word_count : ℚ) / (min_words : ℚ) else 1) 1
    else 20
  else 30

/-- ScoringEngine._rule_based_score: keyword-presence term (70 points,
neutral 35 with no keywords) plus the length-compliance term, clamped. -/
def rule_based_score (transcript_lower : String) (keywords : List String)
    (min_words max_words : ℕ) : ℚ :=
  let keyword_term : ℚ :=
    if keywords ≠ [] then
      ((keywords.countP (fun kw => containsSub (pyLower kw) transcript_lower) : ℚ) /
        (keywords.length : ℚ)) * 70
    else 35
  let word_count := (pySplit transcript_lower).length
  normalize_score (keyword_term + length_term word_count min_words max_words) 0 100

/-- The piecewise-linear rescaling of ScoringEngine._semantic_score. -/
def semantic_curve (similarity : ℚ) : ℚ :=
  if similarity ≥ 7 / 10 then 70 + (similarity - 7 / 10) * 100
  else if similarity ≥ 4 / 10 then 40 + (similarity - 4 / 10) * 100
  else similarity * 100

/-- ScoringEngine._semantic_score: the oracle similarity rescaled by the
curve and clamped, paired with the raw similarity. -/
def semantic_score (oracle : String → String → ℚ) (transcript description : String) : ℚ × ℚ :=
  let similarity := oracle transcript description
  (normalize_score (semantic_curve similarity) 0 100, similarity)

/-- ScoringEngine._rubric_driven_score: keyword density (capped at 50) plus
keyword coverage (scaled to 50), clamped; neutral 50 with no keywords. -/
def rubric_driven_score (transcript_lower : String) (keywords : List String) : ℚ :=
  if keywords = [] then 50
  else
    let total_occurrences := (keywords.map (fun kw => pyCount (pyLower kw) transcript_lower)).sum
    let density : ℚ := if total_occurrences > 0 then min 50 ((total_occurrences : ℚ) * 10) else 0
    let present := keywords.countP (fun kw => containsSub (pyLower kw) transcript_lower)
    let coverage : ℚ := (present : ℚ) / (keywords.length : ℚ)
    normalize_score (density + coverage * 50) 0 100

/-- One entry of criteria_scores in ScoringEngine.score_transcript; the
three score_breakdown fields are inlined as rule_based, semantic and
rubric_driven. -/
structure CriterionResult where
  criterion : String
  score : ℚ
  weight : ℚ
  keywords_found : List String
  keywords_missing : List String
  keyword_match_rate : ℚ
  semantic_similarity : ℚ
  word_count_status : String
  feedback : String
  rule_based : ℚ
  semantic : ℚ
  rubric_driven : ℚ
  deriving Repr

/-- ScoringEngine._score_criterion. -/
def score_criterion (oracle : String → String → ℚ) (wordTok : String → List String)
    (transcript transcript_lower criterion_name description : String)
    (keywords : List String) (weight : ℚ) (min_words max_words : ℕ) : CriterionResult :=
  let rule_score := rule_based_score transcript_lower keywords min_words max_words
  let sem := semantic_score oracle transcript description
  let rubric_score := rubric_driven_score transcript_lower keywords
  let combined_score := rule_score * (4 / 10) + sem.1 * (4 / 10) + rubric_score * (2 / 10)
  let final_score := normalize_score combined_score 0 100
  let keyword_matches := find_keyword_matches wordTok transcript keywords
  let word_count := count_words wordTok transcript
  let status := get_word_count_status word_count min_words max_words
  let fb := format_feedback final_score keyword_matches.found keyword_matches.missing
    sem.2 word_count min_words max_words
  { criterion := criterion_name
    score := pyRound2 final_score
    weight := weight
    keywords_found := keyword_matches.found
    keywords_missing := keyword_matches.missing
    keyword_match_rate := pyRound2 keyword_matches.match_rate
    semantic_similarity := pyRound2 sem.2
    word_count_status := status
    feedback := fb
    rule_based := pyRound2 rule_score
    semantic := pyRound2 sem.1
    rubric_driven := pyRound2 rubric_score }

/-- One row of the rubric table consumed by ScoringEngine.score_transcript:
the Criterion, Description, Keywords (raw comma-separated string), Weight,
Min_Words and Max_Words columns. -/
structure RubricRow where
  criterion : String
  description : String
  keywords : String
  weight : ℚ
  min_words : ℕ
  max_words : ℕ

/-- The result object of ScoringEngine.score_transcript. -/
structure ScoreReport where
  overall_score : ℚ
  word_count : ℕ
  criteria_scores : List CriterionResult
  text_quality : TextQuality

/-- ScoringEngine.score_transcript: preprocess, analyze quality, score each
rubric row in order, aggregate by weighted average.  none models the
propagated ZeroDivisionError of analyze_text_quality. -/
def score_transcript (oracle : String → String → ℚ)
    (wordTok sentTok : String → List String)
    (rubric : List RubricRow) (transcript : String) : Option ScoreReport :=
  let t := preprocess_text transcript
  let tl := pyLower t
  match analyze_text_quality sentTok wordTok t with
  | none => none
  | some tq =>
    let criteria_scores := rubric.map (fun row =>
      score_criterion oracle wordTok t tl row.criterion row.description
        (parse_keywords row.keywords) row.weight row.min_words row.max_words)
    let overall := calculate_weighted_average
      (criteria_scores.map (fun c => c.score)) (criteria_scores.map (fun c => c.weight))
    some { overall_score := pyRound2 overall
           word_count := tq.word_count
           criteria_scores := criteria_scores
           text_quality := tq }

/-! ## backend/app.py, score endpoint (lines 127-140): validate first,
invoke the scoring engine only when validation succeeded. -/

/-- The validation-then-score flow of the score endpoint: an invalid
transcript is answered with the validation message and the scorer is never
invoked. -/
def score_endpoint {α : Type} (scorer : String → α) (transcript : String) : Except String α :=
  let validation := validate_transcript transcript
  if validation.valid then Except.ok (scorer transcript)
  else Except.error validation.message

/-! ## Fixtures used by witness theorems -/

/-- A constant similarity oracle used in witnesses. -/
def wOracle : String → String → ℚ := fun _ _ => 1 / 2

/-- A tokenizer returning no tokens, used in witnesses. -/
def wTokNil : String → List String := fun _ => []

/-- A tokenizer sending every text to the single token bang, matching the
nltk behaviour word_tokenize of a lone bang character. -/
def wTokBang : String → List String := fun _ => [("!")]

/-- A one-row rubric used in witnesses. -/
def wRubric : List RubricRow :=
  [{ criterion := ("c"), description := ("d"), keywords := (""),
     weight := 1, min_words := 0, max_words := 999 }]

/-! ## Helper lemmas -/

theorem normalize_score_mem (x : ℚ) :
    0 ≤ normalize_score x 0 100 ∧ normalize_score x 0 100 ≤ 100 := by
  unfold normalize_score
  exact ⟨le_max_left _ _, max_le (by norm_num) (min_le_left _ _)⟩

theorem normalize_score_eq_self (x : ℚ) (h0 : 0 ≤ x) (h1 : x ≤ 100) :
    normalize_score x 0 100 = x := by
  unfold normalize_score
  rw [min_eq_right h1, max_eq_right h0]

theorem pyRound2_mem (x : ℚ) (h0 : 0 ≤ x) (h1 : x ≤ 100) :
    0 ≤ pyRound2 x ∧ pyRound2 x ≤ 100 := by
  unfold pyRound2
  constructor
  · apply div_nonneg _ (by norm_num)
    have hz : (0 : ℤ) ≤ ⌊x * 100 + 1 / 2⌋ := Int.le_floor.mpr (by push_cast; linarith)
    exact_mod_cast hz
  · rw [div_le_iff₀ (by norm_num : (0 : ℚ) < 100)]
    have hfl : (⌊x * 100 + 1 / 2⌋ : ℚ) ≤ 10000 + 1 / 2 :=
      le_trans (Int.floor_le _) (by linarith)
    have hltq : (⌊x * 100 + 1 / 2⌋ : ℚ) < 10001 := lt_of_le_of_lt hfl (by norm_num)
    have hlt : ⌊x * 100 + 1 / 2⌋ < (10001 : ℤ) := by exact_mod_cast hltq
    have hle : ⌊x * 100 + 1 / 2⌋ ≤ 10000 := by omega
    calc (⌊x * 100 + 1 / 2⌋ : ℚ) ≤ 10000 := by exact_mod_cast hle
      _ = 100 * 100 := by norm_num

/-! ## Claim theorems -/

/-- Claim C2: for every similarity value s in the unit interval, the
semantic sub-score computed by the semantic scoring step equals
70 + (s - 0.7) * 100 when s is at least 0.7 (landing in the range 70 to
100), equals 40 + (s - 0.4) * 100 when s lies in the interval from 0.4
up to but excluding 0.7 (landing in 40 up to but excluding 70), and equals
s * 100 when s is below 0.4 (landing in 0 up to but excluding 40). -/
theorem semantic_score_piecewise (oracle : String → String → ℚ) (t d : String)
    (h0 : 0 ≤ oracle t d) (h1 : oracle t d ≤ 1) :
    (7 / 10 ≤ oracle t d →
      (semantic_score oracle t d).1 = 70 + (oracle t d - 7 / 10) * 100 ∧
      70 ≤ (semantic_score oracle t d).1 ∧ (semantic_score oracle t d).1 ≤ 100) ∧
    (4 / 10 ≤ oracle t d → oracle t d < 7 / 10 →
      (semantic_score oracle t d).1 = 40 + (oracle t d - 4 / 10) * 100 ∧
      40 ≤ (semantic_score oracle t d).1 ∧ (semantic_score oracle t d).1 < 70) ∧
    (oracle t d < 4 / 10 →
      (semantic_score oracle t d).1 = oracle t d * 100 ∧
      0 ≤ (semantic_score oracle t d).1 ∧ (semantic_score oracle t d).1 < 40) := by
  set s := oracle t d with hs
  have hval : (semantic_score oracle t d).1 = normalize_score (semantic_curve s) 0 100 := rfl
  refine ⟨fun hge => ?_, fun hge hlt => ?_, fun hlt => ?_⟩
  · have hc : semantic_curve s = 70 + (s - 7 / 10) * 100 := by
      unfold semantic_curve; rw [if_pos hge]
    have heq : (semantic_score oracle t d).1 = 70 + (s - 7 / 10) * 100 := by
      rw [hval, hc, normalize_score_eq_self _ (by linarith) (by linarith)]
    exact ⟨heq, by rw [heq]; constructor <;> linarith⟩
  · have hc : semantic_curve s = 40 + (s - 4 / 10) * 100 := by
      unfold semantic_curve; rw [if_neg (by linarith), if_pos hge]
    have heq : (semantic_score oracle t d).1 = 40 + (s - 4 / 10) * 100 := by
      rw [hval, hc, normalize_score_eq_self _ (by linarith) (by linarith)]
    exact ⟨heq, by rw [heq]; constructor <;> linarith⟩
  · have hc : semantic_curve s = s * 100 := by
      unfold semantic_curve; rw [if_neg (by linarith), if_neg (by linarith)]
    have heq : (semantic_score oracle t d).1 = s * 100 := by
      rw [hval, hc, normalize_score_eq_self _ (by linarith) (by linarith)]
    exact ⟨heq, by rw [heq]; constructor <;> linarith⟩

/-- Witness for C2 at the concrete similarity value one half. -/
theorem semantic_score_piecewise_witness :
    (0 ≤ wOracle ("t") ("d") ∧ wOracle ("t") ("d") ≤ 1) ∧
    (semantic_score wOracle ("t") ("d")).1 = 40 + (1 / 2 - 4 / 10) * 100 := by
  refine ⟨⟨by norm_num [wOracle], by norm_num [wOracle]⟩, ?_⟩
  have h := (semantic_score_piecewise wOracle ("t") ("d") (by norm_num [wOracle])
    (by norm_num [wOracle])).2.1 (by norm_num [wOracle]) (by norm_num [wOracle])
  exact h.1

/-- Claim C3: the length term of the rule-based sub-score awards the full
30 points when min_words is 0 and max_words is at least 999; awards 30 when
the word count lies within the bounds; awards 30 times the minimum of the
ratio word_count over min_words and 1 when the word count is below
min_words (the ratio being defined as 1 when min_words is 0); and awards a
flat 20, independent of the overage, when the word count exceeds max_words
outside the unbounded sentinel. -/
theorem length_term_cases (wc minW maxW : ℕ) (hmm : minW ≤ maxW) :
    (minW = 0 → 999 ≤ maxW → length_term wc minW maxW = 30) ∧
    (minW ≤ wc → wc ≤ maxW → length_term wc minW maxW = 30) ∧
    (wc < minW → length_term wc minW maxW =
      30 * min (if 0 < minW then (wc : ℚ) / (minW : ℚ) else 1) 1) ∧
    (maxW < wc → ¬(minW = 0 ∧ 999 ≤ maxW) → length_term wc minW maxW = 20) := by
  refine ⟨fun h0 h999 => ?_, fun hlo hhi => ?_, fun hlt => ?_, fun hgt hns => ?_⟩
  · unfold length_term
    rw [if_neg (by omega)]
  · unfold length_term
    by_cases hcond : 0 < minW ∨ maxW < 999
    · rw [if_pos hcond, if_pos ⟨hlo, hhi⟩]
    · rw [if_neg hcond]
  · unfold length_term
    rw [if_pos (by omega), if_neg (by omega), if_pos hlt]
  · unfold length_term
    rw [if_pos (by omega), if_neg (by omega), if_neg (by omega)]

/-- Witness for C3 at word count 5 with bounds 3 and 10. -/
theorem length_term_cases_witness :
    (3 : ℕ) ≤ 10 ∧ (3 : ℕ) ≤ 5 ∧ (5 : ℕ) ≤ 10 ∧ length_term 5 3 10 = 30 := by
  refine ⟨by omega, by omega, by omega, ?_⟩
  exact (length_term_cases 5 3 10 (by omega)).2.1 (by omega) (by omega)

/-- Counterexample for C7 as stated: with min_words 0 and max_words 999 a
word count of exactly min_words is classified no_limit, not within_range. -/
theorem word_count_status_sentinel_cex :
    get_word_count_status 0 0 999 = ("no_limit") ∧
    ("no_limit" : String) ≠ ("within_range") := by
  exact ⟨rfl, by decide⟩

/-- Claim C7 as amended: outside the unbounded sentinel (min_words equal 0
with max_words at least 999, where the status is no_limit), a transcript
whose word count is exactly min_words is classified within_range and in
particular not too_short. -/
theorem word_count_status_at_min (wc minW maxW : ℕ) (hmm : minW ≤ maxW)
    (hwc : wc = minW) (hns : ¬(minW = 0 ∧ 999 ≤ maxW)) :
    get_word_count_status wc minW maxW = ("within_range") ∧
    get_word_count_status wc minW maxW ≠ ("too_short") := by
  subst hwc
  unfold get_word_count_status
  rw [if_neg (by omega), if_neg (by omega), if_neg (by omega)]
  exact ⟨rfl, by decide⟩

/-- Witness for C7 amended at word count 5 with bounds 5 and 10. -/
theorem word_count_status_at_min_witness :
    (5 : ℕ) ≤ 10 ∧ (5 : ℕ) = 5 ∧ ¬((5 : ℕ) = 0 ∧ 999 ≤ (10 : ℕ)) ∧
    get_word_count_status 5 5 10 = ("within_range") := by
  refine ⟨by omega, rfl, by omega, ?_⟩
  exact (word_count_status_at_min 5 5 10 (by omega) rfl (by omega)).1

theorem append3_ne_empty (a b c : String) (h : a.length ≠ 0) : a ++ b ++ c ≠ "" := by
  intro heq
  have hlen := congrArg String.length heq
  rw [String.length_append, String.length_append] at hlen
  have h0 : ("" : String).length = 0 := rfl
  rw [h0] at hlen
  omega

/-- Claim C6: validation marks a transcript invalid, with a nonempty
human-readable message, exactly when it is empty after trimming, its word
count is below 10, or its word count is above 5000; the score endpoint
answers an invalid transcript with the validation message and never invokes
the scorer, and scores a valid transcript. -/
theorem validate_transcript_spec (t : String) :
    ((validate_transcript t).valid = false ↔
      (pyStrip t = "" ∨ (pySplit t).length < 10 ∨ (pySplit t).length > 5000)) ∧
    ((validate_transcript t).valid = false → (validate_transcript t).message ≠ "") ∧
    (∀ (α : Type) (scorer : String → α), (validate_transcript t).valid = false →
      score_endpoint scorer t = Except.error (validate_transcript t).message) ∧
    (∀ (α : Type) (scorer : String → α), (validate_transcript t).valid = true →
      score_endpoint scorer t = Except.ok (scorer t)) := by
  refine ⟨?_, ?_, ?_, ?_⟩
  · by_cases h1 : t = "" ∨ pyStrip t = ""
    · have hstrip : pyStrip t = "" := by
        rcases h1 with h | h
        · rw [h]; rfl
        · exact h
      simp [validate_transcript, h1, hstrip]
    · push_neg at h1
      by_cases h2 : (pySplit t).length < 10
      · simp [validate_transcript, h1.1, h1.2, h2]
      · by_cases h3 : (pySplit t).length > 5000
        · simp [validate_transcript, h1.1, h1.2, h2, h3]
        · simp [validate_transcript, h1.1, h1.2, h2, h3]
  · by_cases h1 : t = "" ∨ pyStrip t = ""
    · intro _
      simp [validate_transcript, h1]
    · push_neg at h1
      by_cases h2 : (pySplit t).length < 10
      · intro _
        simp only [validate_transcript, h1.1, h1.2, h2, or_self, ite_true, ite_false]
        exact append3_ne_empty _ _ _ (by decide)
      · by_cases h3 : (pySplit t).length > 5000
        · intro _
          simp only [validate_transcript, h1.1, h1.2, h2, h3, or_self, ite_true, ite_false]
          exact append3_ne_empty _ _ _ (by decide)
        · intro hv
          simp [validate_transcript, h1.1, h1.2, h2, h3] at hv
  · intro α scorer hv
    unfold score_endpoint
    rw [if_neg (by rw [hv]; exact Bool.false_ne_true)]
  · intro α scorer hv
    unfold score_endpoint
    rw [if_pos hv]

/-- Witness for C6: a two-word transcript is rejected as too short and the
endpoint reports the validation message without scoring. -/
theorem validate_transcript_spec_witness :
    (validate_transcript ("hi there")).valid = false ∧
    score_endpoint (fun s => s) ("hi there") =
      Except.error (validate_transcript ("hi there")).message := by
  have hv : (validate_transcript ("hi there")).valid = false := by decide
  exact ⟨hv, (validate_transcript_spec ("hi there")).2.2.1 String (fun s => s) hv⟩

/-- Claim C4: match_rate is the number of found keywords divided by the
number of keywords, 0 for an empty keyword list; for a nonempty list it is
1 exactly when every keyword matches (case-folded substring or exact
case-folded token); found and missing preserve the input keyword order
(they are sublists of the input list). -/
theorem find_keyword_matches_spec (wordTok : String → List String) (text : String)
    (keywords : List String) :
    (keywords = [] → (find_keyword_matches wordTok text keywords).match_rate = 0) ∧
    (keywords ≠ [] →
      (find_keyword_matches wordTok text keywords).match_rate =
        ((find_keyword_matches wordTok text keywords).found.length : ℚ) /
          (keywords.length : ℚ)) ∧
    (keywords ≠ [] →
      ((find_keyword_matches wordTok text keywords).match_rate = 1 ↔
        ∀ kw ∈ keywords, keyword_matched wordTok text kw = true)) ∧
    (find_keyword_matches wordTok text keywords).found.Sublist keywords ∧
    (find_keyword_matches wordTok text keywords).missing.Sublist keywords := by
  refine ⟨fun hnil => ?_, fun hne => ?_, fun hne => ?_, ?_, ?_⟩
  · simp [find_keyword_matches, hnil]
  · simp [find_keyword_matches, hne]
  · have hlen0 : (keywords.length : ℚ) ≠ 0 := by
      have hne0 : keywords.length ≠ 0 := Nat.pos_iff_ne_zero.mp (List.length_pos.mpr hne)
      exact_mod_cast hne0
    simp only [find_keyword_matches, hne, ne_eq, not_false_iff, if_pos]
    constructor
    · intro hrate
      have hdiv : ((keywords.filter (fun kw => keyword_matched wordTok text kw)).length : ℚ) =
          (keywords.length : ℚ) := by
        rw [div_eq_iff hlen0, one_mul] at hrate
        exact hrate
      have hlen : (keywords.filter (fun kw => keyword_matched wordTok text kw)).length =
          keywords.length := by exact_mod_cast hdiv
      have heq : keywords.filter (fun kw => keyword_matched wordTok text kw) = keywords :=
        (List.filter_sublist keywords).eq_of_length hlen
      intro kw hkw
      exact List.filter_eq_self.mp heq kw hkw
    · intro hall
      have heq : keywords.filter (fun kw => keyword_matched wordTok text kw) = keywords :=
        List.filter_eq_self.mpr hall
      rw [heq, div_self hlen0]
  · exact List.filter_sublist keywords
  · exact List.filter_sublist keywords

/-- Witness for C4: two keywords against a constant tokenizer, one of them
matching by the substring test. -/
theorem find_keyword_matches_spec_witness :
    (["hello", "xyz"] : List String) ≠ [] ∧
    (find_keyword_matches wTokNil ("hello world") ["hello", "xyz"]).match_rate =
      ((find_keyword_matches wTokNil ("hello world") ["hello", "xyz"]).found.length : ℚ) /
        ((["hello", "xyz"] : List String).length : ℚ) := by
  refine ⟨by decide, ?_⟩
  exact (find_keyword_matches_spec wTokNil ("hello world") ["hello", "xyz"]).2.1 (by decide)

/-- Claim C10: found and missing partition the input keyword list: the two
lengths sum to the number of keywords, every input keyword lies in exactly
one of the two lists, and every element of either list is an input
keyword. -/
theorem find_keyword_matches_partition (wordTok : String → List String) (text : String)
    (keywords : List String) :
    ((find_keyword_matches wordTok text keywords).found.length +
      (find_keyword_matches wordTok text keywords).missing.length = keywords.length) ∧
    (∀ kw ∈ keywords,
      (kw ∈ (find_keyword_matches wordTok text keywords).found ∧
        kw ∉ (find_keyword_matches wordTok text keywords).missing) ∨
      (kw ∈ (find_keyword_matches wordTok text keywords).missing ∧
        kw ∉ (find_keyword_matches wordTok text keywords).found)) ∧
    (∀ kw ∈ (find_keyword_matches wordTok text keywords).found, kw ∈ keywords) ∧
    (∀ kw ∈ (find_keyword_matches wordTok text keywords).missing, kw ∈ keywords) := by
  refine ⟨?_, fun kw hkw => ?_, fun kw hkw => ?_, fun kw hkw => ?_⟩
  · simp only [find_keyword_matches]
    exact (List.length_eq_length_filter_add (fun kw => keyword_matched wordTok text kw)).symm
  · simp only [find_keyword_matches, List.mem_filter]
    by_cases hm : keyword_matched wordTok text kw = true
    · left
      exact ⟨⟨hkw, hm⟩, fun hc => by simp [hm] at hc⟩
    · right
      refine ⟨⟨hkw, by simp [Bool.not_eq_true] at hm ⊢; exact hm⟩, fun hc => hm hc.2⟩
  · exact (List.mem_filter.mp hkw).1
  · exact (List.mem_filter.mp hkw).1

/-- Witness for C10: the membership clause at a concrete matched keyword. -/
theorem find_keyword_matches_partition_witness :
    ("hello" : String) ∈ (["hello", "xyz"] : List String) ∧
    (("hello" : String) ∈ (find_keyword_matches wTokNil ("hello world") ["hello", "xyz"]).found ∧
      ("hello" : String) ∉ (find_keyword_matches wTokNil ("hello world") ["hello", "xyz"]).missing) ∨
    (("hello" : String) ∈ (find_keyword_matches wTokNil ("hello world") ["hello", "xyz"]).missing ∧
      ("hello" : String) ∉ (find_keyword_matches wTokNil ("hello world") ["hello", "xyz"]).found) := by
  left
  refine ⟨by decide, ?_⟩
  have h := (find_keyword_matches_partition wTokNil ("hello world") ["hello", "xyz"]).2.1
    ("hello") (by decide)
  rcases h with h | h
  · exact h
  · exact absurd h.1 (by decide)

theorem zipWith_mul_eq_map_zip :
    ∀ (s w : List ℚ), List.zipWith (fun a b => a * b) s w =
      (s.zip w).map (fun p => p.1 * p.2)
  | [], _ => rfl
  | _ :: _, [] => rfl
  | a :: s, b :: w => by
    simp only [List.zipWith_cons_cons, List.zip_cons_cons, List.map_cons]
    rw [zipWith_mul_eq_map_zip s w]

/-- Claim C5: for equal-length score and weight lists the weighted average
is the sum of products divided by the total weight; applying the same
permutation to both lists (phrased as a permutation of the zipped pair
lists) leaves the result unchanged; and the result is 0 when either list
is empty or the total weight is 0. -/
theorem calculate_weighted_average_spec :
    (∀ scores weights : List ℚ, scores.length = weights.length → scores ≠ [] →
      weights.sum ≠ 0 →
      calculate_weighted_average scores weights =
        (List.zipWith (fun s w => s * w) scores weights).sum / weights.sum) ∧
    (∀ s1 w1 s2 w2 : List ℚ, s1.length = w1.length → s2.length = w2.length →
      (s1.zip w1).Perm (s2.zip w2) →
      calculate_weighted_average s1 w1 = calculate_weighted_average s2 w2) ∧
    (∀ scores weights : List ℚ, scores = [] ∨ weights = [] →
      calculate_weighted_average scores weights = 0) ∧
    (∀ scores weights : List ℚ, weights.sum = 0 →
      calculate_weighted_average scores weights = 0) := by
  refine ⟨?_, ?_, ?_, ?_⟩
  · intro scores weights hlen hne hw
    have hwne : weights ≠ [] := by
      intro h
      exact hne (List.length_eq_zero.mp (by rw [hlen, h]; rfl))
    unfold calculate_weighted_average
    rw [if_neg (by push_neg; exact ⟨hne, hwne, by omega⟩)]
    simp only [if_neg hw]
  · intro s1 w1 s2 w2 h1 h2 hp
    have hw : w1.sum = w2.sum := by
      have e1 : (s1.zip w1).map Prod.snd = w1 := List.map_snd_zip s1 w1 (le_of_eq h1.symm)
      have e2 : (s2.zip w2).map Prod.snd = w2 := List.map_snd_zip s2 w2 (le_of_eq h2.symm)
      rw [← e1, ← e2]
      exact (hp.map Prod.snd).sum_eq
    have hs : (List.zipWith (fun a b => a * b) s1 w1).sum =
        (List.zipWith (fun a b => a * b) s2 w2).sum := by
      rw [zipWith_mul_eq_map_zip, zipWith_mul_eq_map_zip]
      exact (hp.map (fun p => p.1 * p.2)).sum_eq
    by_cases hnil : s1 = []
    · have hz1 : s1.zip w1 = [] := by rw [hnil]; rfl
      have hz2 : s2.zip w2 = [] := List.Perm.eq_nil (hz1 ▸ hp.symm)
      have hnil2 : s2 = [] := by
        rcases List.zip_eq_nil_iff.mp hz2 with h | h
        · exact h
        · exact List.length_eq_zero.mp (by rw [h2, h]; rfl)
      rw [hnil, hnil2]
      unfold calculate_weighted_average
      rw [if_pos (Or.inl rfl), if_pos (Or.inl rfl)]
    · have hnil2 : s2 ≠ [] := by
        intro h
        have hz2 : s2.zip w2 = [] := by rw [h]; rfl
        have hz1 : s1.zip w1 = [] := List.Perm.eq_nil (hz2 ▸ hp)
        rcases List.zip_eq_nil_iff.mp hz1 with h' | h'
        · exact hnil h'
        · exact hnil (List.length_eq_zero.mp (by rw [h1, h']; rfl))
      have hw1ne : w1 ≠ [] := by
        intro h
        exact hnil (List.length_eq_zero.mp (by rw [h1, h]; rfl))
      have hw2ne : w2 ≠ [] := by
        intro h
        exact hnil2 (List.length_eq_zero.mp (by rw [h2, h]; rfl))
      have hc1 : ¬(s1 = [] ∨ w1 = [] ∨ s1.length ≠ w1.length) := by
        push_neg; exact ⟨hnil, hw1ne, h1⟩
      have hc2 : ¬(s2 = [] ∨ w2 = [] ∨ s2.length ≠ w2.length) := by
        push_neg; exact ⟨hnil2, hw2ne, h2⟩
      unfold calculate_weighted_average
      rw [if_neg hc1, if_neg hc2]
      simp only
      by_cases hz : w1.sum = 0
      · rw [if_pos hz, if_pos (by rw [← hw]; exact hz)]
      · rw [if_neg hz, if_neg (by rw [← hw]; exact hz), hw, hs]
  · intro scores weights h
    unfold calculate_weighted_average
    rcases h with h | h
    · rw [if_pos (Or.inl h)]
    · rw [if_pos (Or.inr (Or.inl h))]
  · intro scores weights h
    unfold calculate_weighted_average
    by_cases hc : scores = [] ∨ weights = [] ∨ scores.length ≠ weights.length
    · rw [if_pos hc]
    · rw [if_neg hc]
      simp only
      rw [if_pos h]

/-- Witness for C5: swapping the two score-weight pairs leaves the
weighted average unchanged. -/
theorem calculate_weighted_average_spec_witness :
    ([(80 : ℚ), 60].length = [(1 : ℚ), 3].length) ∧
    ([(60 : ℚ), 80].length = [(3 : ℚ), 1].length) ∧
    calculate_weighted_average [(80 : ℚ), 60] [(1 : ℚ), 3] =
      calculate_weighted_average [(60 : ℚ), 80] [(3 : ℚ), 1] := by
  refine ⟨rfl, rfl, ?_⟩
  exact calculate_weighted_average_spec.2.1 [(80 : ℚ), 60] [(1 : ℚ), 3]
    [(60 : ℚ), 80] [(3 : ℚ), 1] rfl rfl (by decide)

/-- Claim C8 (refuted by the code): analyze_text_quality is not total.
When the tokenizer returns a nonempty token list with no alphanumeric token
(the nltk behaviour on a lone exclamation mark), the vocabulary_richness
entry divides by the zero count of alphanumeric tokens, because the Python
guard checks the token list instead of the alphanumeric count; the
resulting ZeroDivisionError is modelled as none. -/
theorem analyze_text_quality_divzero (sentTok wordTok : String → List String)
    (h : wordTok ("!") = [("!")]) :
    analyze_text_quality sentTok wordTok ("!") = none := by
  simp only [analyze_text_quality, h]
  rw [if_pos (by decide)]

/-- Witness for C8 at the failing input: a tokenizer sending the lone bang
to the one-token list bang makes analyze_text_quality fail. -/
theorem analyze_text_quality_divzero_witness :
    wTokBang ("!") = [("!")] ∧ analyze_text_quality wTokBang wTokBang ("!") = none :=
  ⟨rfl, analyze_text_quality_divzero wTokBang wTokBang rfl⟩

theorem collapseWs_ws_space (l : List Char) :
    ∀ (b : Bool) (c : Char), c ∈ collapseWsAux b l → c.isWhitespace = true → c = ' ' := by
  induction l with
  | nil =>
    intro b c hc _
    simp [collapseWsAux] at hc
  | cons d t ih =>
    intro b c hc hws
    unfold collapseWsAux at hc
    by_cases hd : d.isWhitespace
    · rw [if_pos hd] at hc
      cases b with
      | true =>
        rw [if_pos rfl] at hc
        exact ih true c hc hws
      | false =>
        rw [if_neg (by decide)] at hc
        rcases List.mem_cons.mp hc with h | h
        · exact h
        · exact ih true c h hws
    · rw [if_neg hd] at hc
      rcases List.mem_cons.mp hc with h | h
      · rw [h] at hws
        exact absurd hws hd
      · exact ih false c h hws

theorem pyStrip_subset (s : String) (c : Char) (hc : c ∈ (pyStrip s).toList) :
    c ∈ s.toList := by
  unfold pyStrip at hc
  rw [List.toList_asString] at hc
  have h1 : c ∈ (s.toList.dropWhile Char.isWhitespace).reverse.dropWhile Char.isWhitespace :=
    List.mem_reverse.mp hc
  have h2 : c ∈ (s.toList.dropWhile Char.isWhitespace).reverse :=
    (List.dropWhile_sublist _).subset h1
  have h3 : c ∈ s.toList.dropWhile Char.isWhitespace := List.mem_reverse.mp h2
  exact (List.dropWhile_sublist _).subset h3

/-- Counterexample for C9 as stated: preprocess_text keeps the underscore
(the word-character class of the removal regex includes it), so not every
output character is alphanumeric, a space, or one of the four punctuation
marks and hyphen. -/
theorem preprocess_text_underscore_cex :
    '_' ∈ (preprocess_text ("a_b")).toList ∧
    ¬('_'.isAlphanum = true ∨ '_' = ' ' ∨ '_' = '.' ∨ '_' = ',' ∨ '_' = '!' ∨
      '_' = '?' ∨ '_' = '-') := by
  decide

/-- Claim C9 as amended: every character of the output of preprocess_text
is alphanumeric, an underscore (kept by the word-character class of the
removal regex), a space, or one of period, comma, bang, question mark,
hyphen. -/
theorem preprocess_text_charset (t : String) (c : Char)
    (hc : c ∈ (preprocess_text t).toList) :
    c.isAlphanum = true ∨ c = '_' ∨ c = ' ' ∨ c = '.' ∨ c = ',' ∨ c = '!' ∨
      c = '?' ∨ c = '-' := by
  have hc2 := pyStrip_subset _ c hc
  rw [List.toList_asString] at hc2
  have hmem := List.mem_filter.mp hc2
  have hkeep : keepChar c = true := hmem.2
  have hcl : c ∈ collapseWsAux false t.toList := by
    have h := hmem.1
    rwa [List.toList_asString] at h
  unfold keepChar at hkeep
  simp only [Bool.or_eq_true, decide_eq_true_eq] at hkeep
  rcases hkeep with ((((((halnum | hus) | hws) | hdot) | hcom) | hbang) | hq) | hhyph
  · exact Or.inl halnum
  · exact Or.inr (Or.inl hus)
  · exact Or.inr (Or.inr (Or.inl (collapseWs_ws_space t.toList false c hcl hws)))
  · exact Or.inr (Or.inr (Or.inr (Or.inl hdot)))
  · exact Or.inr (Or.inr (Or.inr (Or.inr (Or.inl hcom))))
  · exact Or.inr (Or.inr (Or.inr (Or.inr (Or.inr (Or.inl hbang)))))
  · exact Or.inr (Or.inr (Or.inr (Or.inr (Or.inr (Or.inr (Or.inl hq))))))
  · exact Or.inr (Or.inr (Or.inr (Or.inr (Or.inr (Or.inr (Or.inr hhyph))))))

/-- Witness for C9 amended: the underscore kept in the output of
preprocess_text falls under the amended character set. -/
theorem preprocess_text_charset_witness :
    '_' ∈ (preprocess_text ("a_b")).toList ∧
    ('_'.isAlphanum = true ∨ '_' = '_' ∨ '_' = ' ' ∨ '_' = '.' ∨ '_' = ',' ∨
      '_' = '!' ∨ '_' = '?' ∨ '_' = '-') :=
  ⟨by decide, preprocess_text_charset ("a_b") '_' (by decide)⟩

theorem score_criterion_score_mem (oracle : String → String → ℚ)
    (wordTok : String → List String) (t tl name desc : String)
    (kws : List String) (w : ℚ) (minW maxW : ℕ) :
    0 ≤ (score_criterion oracle wordTok t tl name desc kws w minW maxW).score ∧
      (score_criterion oracle wordTok t tl name desc kws w minW maxW).score ≤ 100 := by
  have h := normalize_score_mem (rule_based_score tl kws minW maxW * (4 / 10) +
    (semantic_score oracle t desc).1 * (4 / 10) + rubric_driven_score tl kws * (2 / 10))
  exact pyRound2_mem _ h.1 h.2

theorem sum_zipWith_nonneg : ∀ (s w : List ℚ), (∀ x ∈ s, 0 ≤ x) → (∀ y ∈ w, 0 ≤ y) →
    0 ≤ (List.zipWith (fun a b => a * b) s w).sum
  | [], _, _, _ => by simp
  | _ :: _, [], _, _ => by simp
  | a :: s, b :: w, hs, hw => by
    simp only [List.zipWith_cons_cons, List.sum_cons]
    have h1 := sum_zipWith_nonneg s w (fun x hx => hs x (List.mem_cons_of_mem _ hx))
      (fun y hy => hw y (List.mem_cons_of_mem _ hy))
    have h2 := mul_nonneg (hs a (List.mem_cons_self a s)) (hw b (List.mem_cons_self b w))
    linarith

theorem sum_zipWith_le : ∀ (s w : List ℚ), (∀ x ∈ s, x ≤ 100) → (∀ y ∈ w, 0 ≤ y) →
    (List.zipWith (fun a b => a * b) s w).sum ≤ 100 * w.sum
  | [], w, _, hw => by
    simp only [List.zipWith_nil_left, List.sum_nil]
    have := List.sum_nonneg hw
    linarith
  | _ :: _, [], _, _ => by simp
  | a :: s, b :: w, hs, hw => by
    simp only [List.zipWith_cons_cons, List.sum_cons]
    have h1 := sum_zipWith_le s w (fun x hx => hs x (List.mem_cons_of_mem _ hx))
      (fun y hy => hw y (List.mem_cons_of_mem _ hy))
    have hb := hw b (List.mem_cons_self b w)
    have ha := hs a (List.mem_cons_self a s)
    have h2 : a * b ≤ 100 * b := mul_le_mul_of_nonneg_right ha hb
    have h3 : (100 : ℚ) * (b + (w.map id).sum) = 100 * b + 100 * (w.map id).sum := by ring
    calc a * b + (List.zipWith (fun a b => a * b) s w).sum ≤ 100 * b + 100 * w.sum := by
          linarith
      _ = 100 * (b + w.sum) := by ring
      _ = 100 * (b :: w).sum := by rw [List.sum_cons]

theorem calculate_weighted_average_mem (scores weights : List ℚ)
    (hs : ∀ x ∈ scores, 0 ≤ x ∧ x ≤ 100) (hw : ∀ y ∈ weights, 0 ≤ y) :
    0 ≤ calculate_weighted_average scores weights ∧
      calculate_weighted_average scores weights ≤ 100 := by
  simp only [calculate_weighted_average]
  split_ifs with h1 h2
  · norm_num
  · norm_num
  · have hts : 0 ≤ weights.sum := List.sum_nonneg hw
    have htpos : 0 < weights.sum := lt_of_le_of_ne hts (Ne.symm h2)
    constructor
    · exact div_nonneg (sum_zipWith_nonneg scores weights (fun x hx => (hs x hx).1) hw) hts
    · rw [div_le_iff₀ htpos]
      exact sum_zipWith_le scores weights (fun x hx => (hs x hx).2) hw

/-- Claim C1: with a similarity oracle ranging in the unit interval and
nonnegative rubric weights, every per-criterion score produced by the
criterion scorer lies in the closed interval 0 to 100, and so do the
overall score and every per-criterion score of any report produced by
score_transcript. -/
theorem scores_within_bounds (oracle : String → String → ℚ)
    (wordTok sentTok : String → List String) (rubric : List RubricRow) (transcript : String)
    (hor : ∀ t d, 0 ≤ oracle t d ∧ oracle t d ≤ 1)
    (hw : ∀ row ∈ rubric, 0 ≤ row.weight) :
    (∀ (t tl name desc : String) (kws : List String) (w : ℚ) (minW maxW : ℕ),
      0 ≤ (score_criterion oracle wordTok t tl name desc kws w minW maxW).score ∧
      (score_criterion oracle wordTok t tl name desc kws w minW maxW).score ≤ 100) ∧
    (∀ r, score_transcript oracle wordTok sentTok rubric transcript = some r →
      (0 ≤ r.overall_score ∧ r.overall_score ≤ 100) ∧
      ∀ cres ∈ r.criteria_scores, 0 ≤ cres.score ∧ cres.score ≤ 100) := by
  constructor
  · intro t tl name desc kws w minW maxW
    exact score_criterion_score_mem oracle wordTok t tl name desc kws w minW maxW
  · intro r hr
    simp only [score_transcript] at hr
    cases hq : analyze_text_quality sentTok wordTok (preprocess_text transcript) with
    | none =>
      rw [hq] at hr
      exact absurd hr (by simp)
    | some tq =>
      rw [hq] at hr
      simp only [Option.some.injEq] at hr
      subst hr
      set f := fun row : RubricRow =>
        score_criterion oracle wordTok (preprocess_text transcript)
          (pyLower (preprocess_text transcript)) row.criterion row.description
          (parse_keywords row.keywords) row.weight row.min_words row.max_words with hf
      have hmem : ∀ cres ∈ List.map f rubric, 0 ≤ cres.score ∧ cres.score ≤ 100 := by
        intro cres hc
        rcases List.mem_map.mp hc with ⟨row, _, hrow⟩
        rw [← hrow]
        exact score_criterion_score_mem oracle wordTok _ _ _ _ _ _ _ _
      have hsc : ∀ x ∈ List.map (fun c => c.score) (List.map f rubric), 0 ≤ x ∧ x ≤ 100 := by
        intro x hx
        rcases List.mem_map.mp hx with ⟨cres, hcres, hxeq⟩
        rw [← hxeq]
        exact hmem cres hcres
      have hwt : ∀ y ∈ List.map (fun c => c.weight) (List.map f rubric), 0 ≤ y := by
        intro y hy
        rcases List.mem_map.mp hy with ⟨cres, hcres, hyeq⟩
        rcases List.mem_map.mp hcres with ⟨row, hrowmem, hrow⟩
        have hweq : cres.weight = row.weight := by rw [← hrow]; rfl
        rw [← hyeq, hweq]
        exact hw row hrowmem
      have hbound := calculate_weighted_average_mem _ _ hsc hwt
      exact ⟨pyRound2_mem _ hbound.1 hbound.2, hmem⟩

/-- Witness for C1: the constant one-half oracle and a one-row rubric with
weight one; the hypotheses are discharged and the per-criterion bound is
instantiated at a concrete criterion. -/
theorem scores_within_bounds_witness :
    (∀ t d : String, 0 ≤ wOracle t d ∧ wOracle t d ≤ 1) ∧
    (∀ row ∈ wRubric, 0 ≤ row.weight) ∧
    (0 ≤ (score_criterion wOracle wTokNil ("hi") ("hi") ("c") ("d") [] 1 0 999).score ∧
      (score_criterion wOracle wTokNil ("hi") ("hi") ("c") ("d") [] 1 0 999).score ≤ 100) := by
  have hor : ∀ t d : String, 0 ≤ wOracle t d ∧ wOracle t d ≤ 1 := by
    intro t d
    constructor <;> norm_num [wOracle]
  have hw : ∀ row ∈ wRubric, 0 ≤ row.weight := by
    intro row hrow
    rcases List.mem_singleton.mp hrow with rfl
    norm_num [wRubric]
  exact ⟨hor, hw,
    (scores_within_bounds wOracle wTokNil wTokNil wRubric ("hi") hor hw).1
      ("hi") ("hi") ("c") ("d") [] 1 0 999⟩

end Nirmaan
